import Mathlib

/-!
Shallow embedding of the multi-context conversation router of
`wingmen/star_citizen_wingman.py` and of the TDD manager of
`wingmen/star_citizen_services/tdd_manager.py`.

Conventions of the embedding:
* Python lists become `List`, dictionaries with a fixed key set become
  structures, `None`-able values become `Option`.
* A Python statement that can raise becomes a computation in
  `Except PyError`; an uncaught exception is `.error e`.
* String-similarity ratios (floats in `[0, 1]` produced by
  `difflib.SequenceMatcher.ratio`) are modelled as rationals, and the
  similarity function itself is a parameter of the matcher, since the
  claims are about the selection logic, not about the similarity metric.
* External collaborators (UEX trading API, keypress execution, TTS,
  response selection from configuration, the LLM transport) are supplied
  through an `Env` record of functions, mirroring section 6 of the spec.
-/

/-- Python exception kinds that the modelled code can raise. -/
inductive PyError where
  | valueError
  | typeError
  | keyError
  | indexError
  | attributeError
deriving DecidableEq

/-- Role of a chat message (the "role" key of the message dicts). -/
inductive Role where
  | system
  | user
  | assistant
  | tool
deriving DecidableEq

/-- One conversation message. In the Python code a message is a dict with a
"role" and "content" key and, for tool messages, optional "name" and
"tool_call_id" keys; an absent key is `none`. -/
structure Message where
  role : Role
  content : String
  name : Option String := none
  tool_call_id : Option String := none
deriving DecidableEq

/-- The `AIContext` enum of `StarCitizenWingman` (class body lines 60-65). -/
inductive AIContext where
  | CORA
  | TDD
deriving DecidableEq

/-- The `value` of each `AIContext` enum member. -/
def AIContext.value : AIContext → String
  | .CORA => "CoraInteractionRequests"
  | .TDD => "TradeAndDevelopmentDivisionRequests"

/-- Python `AIContext(name)`: enum lookup by value. Returns `none` where the
Python constructor raises `ValueError`. -/
def AIContext.fromValue (name : String) : Option AIContext :=
  if name = "CoraInteractionRequests" then some .CORA
  else if name = "TradeAndDevelopmentDivisionRequests" then some .TDD
  else none

/-- The tool definition set visible to the LLM while a context is active.
`_get_cora_tools` and `_get_tdd_tools` (lines 830-987) build two fixed
schema lists from configuration; no claim inspects their JSON content, so
the two possible values are carried symbolically. -/
inductive ToolSet where
  | coraTools
  | tddTools
deriving DecidableEq

/-- `_get_context_tools` (lines 165-171). The trailing `else` branch of the
Python code is unreachable because the enum has exactly the two members. -/
def getContextTools : AIContext → ToolSet
  | .CORA => .coraTools
  | .TDD => .tddTools

/-- One saved entry of `self.contexts_history`: the dict
`{"messages": ..., "tools": ...}` stored by `_save_current_context`. -/
structure SavedContext where
  messages : List Message
  tools : ToolSet
deriving DecidableEq

/-- `self.contexts_history`, a dictionary keyed by the two `AIContext`
members (entries are created lazily and never deleted). -/
structure ContextsHistory where
  cora : Option SavedContext := none
  tdd : Option SavedContext := none
deriving DecidableEq

/-- Dictionary lookup `contexts_history[ctx]` (as an `Option`). -/
def ContextsHistory.get (h : ContextsHistory) : AIContext → Option SavedContext
  | .CORA => h.cora
  | .TDD => h.tdd

/-- Dictionary write `contexts_history[ctx] = v`. -/
def ContextsHistory.insert (h : ContextsHistory) : AIContext → SavedContext → ContextsHistory
  | .CORA, v => { h with cora := some v }
  | .TDD, v => { h with tdd := some v }

/-- Whether a configured command carries a "responses" entry: absent,
explicitly `False`, or a list of canned response texts. -/
inductive ResponsesCfg where
  | unset
  | disabled
  | given (rs : List String)
deriving DecidableEq

/-- A configured command from `self.config["commands"]`: its name, the
instant-activation phrase list (empty when the key is absent or falsy),
the star-citizen sub-command names and the responses entry. -/
structure CommandCfg where
  name : String
  instant_activation : List String := []
  sc_commands : List String := []
  responses : ResponsesCfg := .unset
deriving DecidableEq

/-- The static part of `self.config` read by the router: per-context system
prompt text, voices and conversation models. The full per-context system
prompt is assembled at lines 114-123 from several configuration strings and
fixed text; no claim depends on the exact characters, so the rendered
result per context is carried as configuration data. -/
structure StaticConfig where
  context_prompt_cora : String
  context_prompt_tdd : String
  cora_voice : String
  conversation_model_cora : String
  conversation_model_tdd : String
  commands : List CommandCfg := []
deriving DecidableEq

/-- The rendered system prompt for a context (lines 114-123). -/
def StaticConfig.contextPromptOf (cfg : StaticConfig) : AIContext → String
  | .CORA => cfg.context_prompt_cora
  | .TDD => cfg.context_prompt_tdd

/-- The mutable attributes of `StarCitizenWingman` used by the router,
plus the mutable configuration slots it writes
(`config["openai"]["tts_voice"]`, the three feature toggles and
`config["openai"]["conversation_model"]`). -/
structure WingmanState where
  cfg : StaticConfig
  contexts_history : ContextsHistory := {}
  current_context : AIContext := .CORA
  messages : List Message := []
  current_tools : ToolSet := .coraTools
  messages_buffer : Option Nat := none
  current_user_request : Option String := none
  tdd_voice : String := "onyx"
  config_tts_voice : String := ""
  config_play_beep : Bool := false
  config_radio_effect : Bool := false
  config_robot_effect : Bool := true
  config_conversation_model : String := ""
deriving DecidableEq

/-- The parsed `function_args` dict of a tool call; an argument that a
handler reads is modelled as a field (absent arguments default to ""). -/
structure FunctionArgs where
  context_name : String := ""
  employee_id : String := ""
  command_name : String := ""
  location_name : String := ""
  location_name_from : String := ""
  location_name_to : String := ""
  commodity_name : String := ""
deriving DecidableEq

/-- One tool call of an LLM completion: correlation id, function name and
already-parsed arguments. -/
structure ToolCall where
  id : Option String := none
  function_name : String
  args : FunctionArgs := {}
deriving DecidableEq

/-- Outcome of executing a configured command through
`_execute_star_citizen_command_overwrite` (lines 647-680): the textual
response and instant response assembled by the external keypress and
response-selection collaborators. Inside src, the only mutation of the
conversation state on that path is `reset_conversation_history` when the
executed command is named "ResetConversationHistory" and has no
sc_commands (lines 675-676 and 709-710), which the caller applies. -/
structure ExecOutcome where
  response : String
  instant : Option String := none
deriving DecidableEq

/-- An LLM completion as consumed by `_process_completion` (inherited):
the assistant response message, appended verbatim, and its tool calls
(`None` or a possibly-empty list). -/
structure Completion where
  message : Message
  tool_calls : Option (List ToolCall) := none

/-- External collaborators (spec section 6): string-similarity metric,
configuration lookups and response selection implemented in the parent
class, the UEX trading API (each field returns the already-JSON-serialized
payload that the code passes to `json.dumps`), and the inherited
summarizing/finalizing steps of the turn orchestrator. -/
structure Env where
  ratioFn : String → String → ℚ
  get_command : String → Option CommandCfg
  select_command_response : CommandCfg → Option String
  command_outcome : CommandCfg → ExecOutcome
  keymapping_outcome : String → String × Option String
  uex_best_trade_from_location : String → String
  uex_best_trade_between_locations : String → String → String
  uex_best_sell_price_at_location : String → String → String
  uex_best_trade_for_commodity : String → String
  uex_best_selling_location_for_commodity : String → String
  summarize_function_calls : List Message → String
  finalize_response : String → String

/-- Modelled from the spec: `reset_conversation_history` is inherited from
the parent `OpenAiWingman` class, which is not part of this repository
snapshot (line 277 records that it is used unchanged). Spec section 4.1:
with retention size 0 "the entire post-system-message history is dropped in
one step (full reset)"; the system message at position 0 is never evicted.
So the reset keeps exactly the leading system message. -/
def reset_conversation_history (messages : List Message) : List Message :=
  messages.take 1

/-- The inner `while` loop of `_cleanup_conversation_history`
(lines 265-267): while the sequence is longer than `max_messages`, delete
`messages[1:3]` (the oldest pair after the system message) and count one
deleted pair. The hypothesis `3 ≤ max_messages` holds at the call site
(`max_messages = 2*R + 1` with `R ≠ 0`) and gives termination. -/
def evictPairs (messages : List Message) (max_messages : Nat)
    (hmax : 3 ≤ max_messages) : List Message × Nat :=
  if h : max_messages < messages.length then
    let rest := evictPairs (messages.take 1 ++ messages.drop 3) max_messages hmax
    (rest.1, rest.2 + 1)
  else
    (messages, 0)
termination_by messages.length
decreasing_by
  simp only [List.length_append, List.length_take, List.length_drop]
  omega

/-- `_cleanup_conversation_history` (lines 244-273), as a pure function of
the message list and of `self.messages_buffer`; it returns the new list
and the reported `deleted_pairs` count. The outer `while` loop of the
source runs at most one iteration, because each branch of its body brings
the length within the bound (`reset_conversation_history` leaves at most 1
message and the inner loop stops at `max_messages`), so it is rendered as
a conditional. -/
def cleanup_conversation_history (messages : List Message)
    (messages_buffer : Option Nat) : List Message × Nat :=
  match messages_buffer with
  | none => (messages, 0)
  | some remember_messages =>
    let max_messages := remember_messages * 2 + 1
    if max_messages < messages.length then
      if h : remember_messages = 0 then
        (reset_conversation_history messages, (messages.length - 1) / 2)
      else
        evictPairs messages max_messages (by omega)
    else
      (messages, 0)

/-- The fresh system message built by `_set_current_context` when a context
is activated for the first time (lines 114-123). -/
def systemMessage (cfg : StaticConfig) (new_context : AIContext) : Message :=
  { role := .system, content := cfg.contextPromptOf new_context }

/-- `_set_current_context` (lines 106-134). With `new = true` a fresh
context is initialised (new tool set, a single fresh system message); with
`new = false` the saved history entry is restored — the Python dictionary
access `self.contexts_history[new_context]` raises `KeyError` when the
entry is absent, rendered as `.error .keyError`. Afterwards
`messages_buffer` is set per context: 10 for CORA, 20 for TDD. -/
def setCurrentContext (s : WingmanState) (new_context : AIContext)
    (new : Bool) : Except PyError WingmanState :=
  let setBuffer : WingmanState → WingmanState := fun t =>
    { t with messages_buffer := match new_context with
        | .CORA => some 10
        | .TDD => some 20 }
  if new then
    .ok (setBuffer { s with
      current_context := new_context,
      current_tools := getContextTools new_context,
      messages := [systemMessage s.cfg new_context] })
  else
    match s.contexts_history.get new_context with
    | some saved => .ok (setBuffer { s with
        current_context := new_context,
        current_tools := saved.tools,
        messages := saved.messages })
    | none => .error .keyError

/-- `_save_current_context` (lines 136-141): checkpoint the live messages
and tools under the current context key. The guard
`if self.current_context is not None` is vacuous here because
`current_context` is typed `AIContext` and initialised to `CORA`. -/
def saveCurrentContext (s : WingmanState) : WingmanState :=
  let saved : SavedContext := { messages := s.messages, tools := s.current_tools }
  { s with contexts_history := s.contexts_history.insert s.current_context saved }

/-- `_switch_context` (lines 143-163). Python `self.AIContext(name)` raises
`ValueError` for an unknown enum value; the surrounding handler catches
only `AttributeError`, so the error propagates uncaught
(`.error .valueError`) and the intended "invalid context" handling is dead
code. For a known value the current context is saved and the target is
restored from the store or freshly created. -/
def switchContext (s : WingmanState) (new_context_name : String) :
    Except PyError WingmanState :=
  match AIContext.fromValue new_context_name with
  | none => .error .valueError
  | some context_to_switch_to =>
    if (s.contexts_history.get context_to_switch_to).isSome then
      setCurrentContext (saveCurrentContext s) context_to_switch_to false
    else
      setCurrentContext (saveCurrentContext s) context_to_switch_to true

/-- The per-context side configuration applied after a switch
(lines 482-493 of `_execute_switch_context_function`): voice, audio
toggles and conversation model. -/
def applySideConfig (s : WingmanState) : WingmanState :=
  match s.current_context with
  | .CORA =>
    { s with config_tts_voice := s.cfg.cora_voice,
             config_play_beep := false,
             config_radio_effect := false,
             config_robot_effect := true,
             config_conversation_model := s.cfg.conversation_model_cora }
  | .TDD =>
    { s with config_tts_voice := s.tdd_voice,
             config_play_beep := true,
             config_radio_effect := true,
             config_robot_effect := false,
             config_conversation_model := s.cfg.conversation_model_tdd }

/-- `_execute_switch_context_function` (lines 462-500). With at least 3
live messages the newest two (user request + assistant tool call) are
detached before the switch and re-appended afterwards; with fewer than 3
messages `context_messages` stays `None` and the final
`self.messages.extend(context_messages)` raises `TypeError`
(`list.extend(None)` is not iterable), rendered as `.error .typeError`. -/
def executeSwitchContextFunction (s : WingmanState)
    (function_args : FunctionArgs) :
    Except PyError (WingmanState × String × Option String) :=
  let detach := 3 ≤ s.messages.length
  let context_messages : Option (List Message) :=
    if detach then some (s.messages.drop (s.messages.length - 2)) else none
  let s1 : WingmanState :=
    if detach then
      { s with messages := s.messages.take (s.messages.length - 2) }
    else s
  let context_name_to_switch_to := function_args.context_name
  match switchContext s1 context_name_to_switch_to with
  | .error e => .error e
  | .ok s2 =>
    let s3 := applySideConfig s2
    match context_messages with
    | some ms =>
      .ok ({ s3 with messages := s3.messages ++ ms },
        "switched to context " ++ context_name_to_switch_to ++
          ", reevaluate the user request, keep the users language",
        none)
    | none => .error .typeError

/-- The serialized payload `json.dumps({"success":"True"})` returned by the
switch_tdd_employee branch of the dispatcher (line 437). -/
def tddEmployeeSwitchPayload : String := "\x7b\"success\": \"True\"\x7d"

/-- `_execute_command_by_function_call` (lines 396-460): route one named
tool call to its handler. `switch_context` delegates to the context
switcher; `switch_tdd_employee` mutates only the persona-local voice and
the tts-voice configuration slot; `execute_command` runs keypresses
through external collaborators (only a configured
"ResetConversationHistory" command with no sc_commands touches the
conversation state, via `_execute_command` lines 709-710); the five
trading functions forward to the UEX collaborator and leave the state
unchanged. An unmatched name returns the initial empty responses. -/
def executeCommandByFunctionCall (env : Env) (s : WingmanState)
    (function_name : String) (function_args : FunctionArgs) :
    Except PyError (WingmanState × String × Option String) :=
  if function_name = "switch_context" then
    executeSwitchContextFunction s function_args
  else if function_name = "execute_command" then
    match env.get_command function_args.command_name with
    | some command =>
      let s1 :=
        if command.sc_commands.isEmpty ∧ command.name = "ResetConversationHistory"
        then { s with messages := reset_conversation_history s.messages }
        else s
      let instant : Option String :=
        match command.responses with
        | .given (_ :: _) => env.select_command_response command
        | _ => some ""
      .ok (s1, (env.command_outcome command).response, instant)
    | none =>
      let pr := env.keymapping_outcome function_args.command_name
      .ok (s, pr.1, pr.2)
  else if function_name = "switch_tdd_employee" then
    .ok ({ s with tdd_voice := function_args.employee_id,
                  config_tts_voice := function_args.employee_id },
      tddEmployeeSwitchPayload, none)
  else if function_name = "find_best_trade_route_from_location" then
    .ok (s, env.uex_best_trade_from_location function_args.location_name, some "")
  else if function_name = "find_best_trade_route_between_locations" then
    .ok (s, env.uex_best_trade_between_locations
      function_args.location_name_from function_args.location_name_to, some "")
  else if function_name = "find_best_sell_price_for_commodity_at_location" then
    .ok (s, env.uex_best_sell_price_at_location
      function_args.location_name_to function_args.commodity_name, some "")
  else if function_name = "find_best_trade_route_for_commodity" then
    .ok (s, env.uex_best_trade_for_commodity function_args.commodity_name, some "")
  else if function_name = "find_best_selling_location_for_commodity" then
    .ok (s, env.uex_best_selling_location_for_commodity
      function_args.commodity_name, some "")
  else
    .ok (s, "", some "")

/-- The loop body of `_handle_tool_calls` (lines 302-334) with the running
`instant_response` accumulator: execute each call in order, then append
exactly one tool-result message (role "tool", the textual result, the
function name, and the correlation id when present) to the live sequence
before the next call is processed. -/
def handleToolCallsLoop (env : Env) (s : WingmanState)
    (instant_response : Option String) :
    List ToolCall → Except PyError (WingmanState × Option String)
  | [] => .ok (s, instant_response)
  | tool_call :: rest =>
    match executeCommandByFunctionCall env s tool_call.function_name tool_call.args with
    | .error e => .error e
    | .ok (s1, function_response, ir) =>
      let msg : Message :=
        { role := .tool, content := function_response,
          name := some tool_call.function_name,
          tool_call_id := tool_call.id }
      handleToolCallsLoop env { s1 with messages := s1.messages ++ [msg] } ir rest

/-- `_handle_tool_calls` (lines 302-334), starting with no instant
response; the returned instant response is the one of the last call. -/
def handleToolCalls (env : Env) (s : WingmanState)
    (tool_calls : List ToolCall) :
    Except PyError (WingmanState × Option String) :=
  handleToolCallsLoop env s none tool_calls

/-- The body of the inner phrase loop of
`_execute_instant_activation_command` (lines 625-634): compute the
case-insensitive similarity of the transcript with one phrase and replace
the running best `(best_command, best_ratio)` pair only when the value is
strictly above the acceptance threshold 0.8 and strictly above the running
best. -/
def instantPhraseStep (ratioFn : String → String → ℚ) (transcript : String)
    (command : CommandCfg) (acc : Option CommandCfg × ℚ) (phrase : String) :
    Option CommandCfg × ℚ :=
  let r := ratioFn transcript.toLower phrase.toLower
  if (4 : ℚ)/5 < r ∧ acc.2 < r then (some command, r) else acc

/-- The outer per-command step of the same loop: scan all configured
phrases of one candidate command. -/
def instantCommandStep (ratioFn : String → String → ℚ) (transcript : String)
    (acc : Option CommandCfg × ℚ) (command : CommandCfg) :
    Option CommandCfg × ℚ :=
  command.instant_activation.foldl
    (instantPhraseStep ratioFn transcript command) acc

/-- The candidate-selection loop of `_execute_instant_activation_command`
(lines 615-634): keep the commands with a non-empty (truthy)
instant_activation phrase list, then scan every phrase of every command in
order, starting from `(None, 0)`. Returns the selected command, `none`
when nothing qualified. -/
def bestInstantCommand (ratioFn : String → String → ℚ) (transcript : String)
    (commands : List CommandCfg) : Option CommandCfg :=
  let instant_activation_commands :=
    commands.filter (fun command => !command.instant_activation.isEmpty)
  (instant_activation_commands.foldl
    (instantCommandStep ratioFn transcript) (none, 0)).1

/-- The best case-insensitive phrase ratio of one candidate command against
a transcript (0 for a command with no phrases): the quantity the spec calls
the best-phrase ratio. -/
def bestPhraseScore (ratioFn : String → String → ℚ) (transcript : String)
    (command : CommandCfg) : ℚ :=
  (command.instant_activation.map
    (fun phrase => ratioFn transcript.toLower phrase.toLower)).foldr max 0

/-- `_execute_instant_activation_command` (lines 603-645) after the
selection loop: execute the best command (external keypresses; inside src
the only conversation-state mutation is the history reset of a
"ResetConversationHistory" command with no sc_commands) and derive the
instant response from its responses configuration: "Ok" when responses is
explicitly False, nothing when absent or empty, otherwise a selected
response. -/
def executeInstantActivationCommand (env : Env) (s : WingmanState)
    (transcript : String) : WingmanState × Option String :=
  let best_command := bestInstantCommand env.ratioFn transcript s.cfg.commands
  match best_command with
  | none => (s, none)
  | some command =>
    let s1 :=
      if command.sc_commands.isEmpty ∧ command.name = "ResetConversationHistory"
      then { s with messages := reset_conversation_history s.messages }
      else s
    match command.responses with
    | .disabled => (s1, some "Ok")
    | .unset => (s1, none)
    | .given [] => (s1, none)
    | .given (_ :: _) => (s1, env.select_command_response command)

/-- Modelled from the spec: `_add_user_message` is inherited from the
parent `OpenAiWingman` class, which is not part of this repository
snapshot (line 242 records that it is used unchanged). Spec section 4.6,
CallingModel: "append the user message to the active sequence (subject to
4.1 trimming beforehand)". -/
def addUserMessage (s : WingmanState) (content : String) : WingmanState :=
  { s with messages :=
      (cleanup_conversation_history s.messages s.messages_buffer).1 ++
        [{ role := .user, content := content }] }

/-- `_make_gpt_call` (lines 230-240) with the transport answer as input:
a `None` completion yields `(None, None)`; otherwise the assistant message
is appended verbatim and returned together with its tool calls. -/
def makeGptCall (s : WingmanState) (completion : Option Completion) :
    WingmanState × Option Message × Option (List ToolCall) :=
  match completion with
  | none => (s, none, none)
  | some c =>
    ({ s with messages := s.messages ++ [c.message] }, some c.message, c.tool_calls)

/-- The model-calling tail of `_get_response_for_transcript`
(lines 201-228): append the user message, call the model, dispatch a
non-empty tool-call list through `_handle_tool_calls` followed by the
inherited summarize/finalize steps (external here, spec section 4.6
Finalized); without tool calls line 228 evaluates
`response_message.content` — which raises `AttributeError` when the
transport returned `None` (`response_message` is `None`). -/
def orchestrateModelCall (env : Env) (s : WingmanState) (transcript : String)
    (completion : Option Completion) :
    Except PyError (WingmanState × Option String × Option String) :=
  let s1 := addUserMessage s transcript
  let gpt := makeGptCall s1 completion
  match gpt.2.2 with
  | some (tc :: tcs) =>
    (match handleToolCalls env gpt.1 (tc :: tcs) with
     | .error e => .error e
     | .ok (s3, _) =>
       let summarize_response := env.summarize_function_calls s3.messages
       let final := env.finalize_response summarize_response
       .ok (s3, some final, some final))
  | _ =>
    match gpt.2.1 with
    | none => .error .attributeError
    | some m => .ok (gpt.1, some m.content, some m.content)

/-- `_get_response_for_transcript` (lines 176-228), the turn orchestrator,
with the external LLM answer as input. A truthy (non-empty) instant
response short-circuits the turn; otherwise the model-calling tail runs. -/
def getResponseForTranscript (env : Env) (s : WingmanState)
    (transcript : String) (completion : Option Completion) :
    Except PyError (WingmanState × Option String × Option String) :=
  let s0 := { s with current_user_request := some transcript }
  let instant := executeInstantActivationCommand env s0 transcript
  match instant.2 with
  | some r =>
    if r ≠ "" then .ok (instant.1, some r, some r)
    else orchestrateModelCall env instant.1 transcript completion
  | none => orchestrateModelCall env instant.1 transcript completion

/-- The mutable attributes of `TddManager`
(`star_citizen_services/tdd_manager.py`) used by `switch_tdd_employee`,
together with the configuration slots it writes. -/
structure TddManagerState where
  tdd_voices_config : List String
  tdd_voice : String
  config_tdd_voice : String := ""
  config_tts_voice : String := ""
deriving DecidableEq

/-- The serialized payload returned by `TddManager.switch_tdd_employee`
(lines 306-312). -/
def tddManagerSwitchPayload : String :=
  "\x7b\"success\": true, \"instructions\": \"You are now a different TDD-Employee. Please briefly introduce yourself with your (sy fy) first name and your position within the requested TDD-Departement and how you can help the player. \"\x7d"

/-- `TddManager.switch_tdd_employee` (lines 299-312). The configured comma
separated voice list becomes a set (`dedup`); `set.remove` raises
`KeyError` when the active voice is not a member; `random.choice` picks an
arbitrary element of the remaining list — the random draw is modelled by
the index parameter `r` (reduced modulo the list length), and
`random.choice` of an empty list raises `IndexError`. -/
def switch_tdd_employee (m : TddManagerState) (r : Nat)
    (function_args : FunctionArgs) :
    Except PyError (TddManagerState × String × Option String) :=
  let tdd_voices := m.tdd_voices_config.dedup
  if m.tdd_voice ∈ tdd_voices then
    let remaining := tdd_voices.erase m.tdd_voice
    match remaining.get? (r % remaining.length) with
    | some v =>
      .ok ({ m with tdd_voice := v, config_tdd_voice := v, config_tts_voice := v },
        tddManagerSwitchPayload, none)
    | none => .error .indexError
  else .error .keyError

/-! ### Lemmas about the instant-command matcher -/

/-- The running-best-ratio update: the second component of
`instantPhraseStep` as a function of the computed ratio. -/
def ratioStep (acc r : ℚ) : ℚ :=
  if (4 : ℚ)/5 < r ∧ acc < r then r else acc

theorem ratioStep_le (a r : ℚ) : a ≤ ratioStep a r := by
  unfold ratioStep
  split_ifs with h
  · exact le_of_lt h.2
  · exact le_refl a

theorem le_foldl_ratioStep (l : List ℚ) : ∀ a : ℚ, a ≤ l.foldl ratioStep a := by
  induction l with
  | nil => intro a; exact le_refl a
  | cons r l ih =>
    intro a
    exact le_trans (ratioStep_le a r) (ih (ratioStep a r))

theorem instantPhraseStep_snd (ratioFn : String → String → ℚ) (t : String)
    (c : CommandCfg) (acc : Option CommandCfg × ℚ) (p : String) :
    (instantPhraseStep ratioFn t c acc p).2 =
      ratioStep acc.2 (ratioFn t.toLower p.toLower) := by
  simp only [instantPhraseStep, ratioStep]
  split_ifs <;> rfl

theorem phraseFold_snd (ratioFn : String → String → ℚ) (t : String)
    (c : CommandCfg) (ps : List String) :
    ∀ acc : Option CommandCfg × ℚ,
      (ps.foldl (instantPhraseStep ratioFn t c) acc).2 =
        (ps.map (fun p => ratioFn t.toLower p.toLower)).foldl ratioStep acc.2 := by
  induction ps with
  | nil => intro acc; rfl
  | cons p ps ih =>
    intro acc
    simp only [List.foldl_cons, List.map_cons, ih, instantPhraseStep_snd]

theorem phraseFold_fst (ratioFn : String → String → ℚ) (t : String)
    (c : CommandCfg) (ps : List String) :
    ∀ acc : Option CommandCfg × ℚ,
      (ps.foldl (instantPhraseStep ratioFn t c) acc).1 =
        if acc.2 < (ps.foldl (instantPhraseStep ratioFn t c) acc).2
        then some c else acc.1 := by
  induction ps with
  | nil =>
    intro acc
    simp only [List.foldl_nil]
    rw [if_neg (lt_irrefl acc.2)]
  | cons p ps ih =>
    intro acc
    simp only [List.foldl_cons]
    by_cases h : (4 : ℚ)/5 < ratioFn t.toLower p.toLower ∧
        acc.2 < ratioFn t.toLower p.toLower
    · have hstep : instantPhraseStep ratioFn t c acc p =
          (some c, ratioFn t.toLower p.toLower) := by
        unfold instantPhraseStep
        rw [if_pos h]
      simp only [hstep]
      rw [ih]
      have hmono : ratioFn t.toLower p.toLower ≤
          (ps.foldl (instantPhraseStep ratioFn t c) (some c, ratioFn t.toLower p.toLower)).2 := by
        rw [phraseFold_snd]
        exact le_foldl_ratioStep _ _
      have hlt : acc.2 <
          (ps.foldl (instantPhraseStep ratioFn t c) (some c, ratioFn t.toLower p.toLower)).2 :=
        lt_of_lt_of_le h.2 hmono
      rw [if_pos hlt]
      split_ifs <;> rfl
    · have hstep : instantPhraseStep ratioFn t c acc p = acc := by
        unfold instantPhraseStep
        rw [if_neg h]
      simp only [hstep]
      rw [ih]

theorem foldr_max_nonneg (l : List ℚ) : 0 ≤ l.foldr max 0 := by
  induction l with
  | nil => exact le_refl 0
  | cons r l ih => exact le_trans ih (le_max_right r _)

theorem foldl_ratioStep_eq (l : List ℚ) :
    ∀ b : ℚ, l.foldl ratioStep b =
      if (4 : ℚ)/5 < l.foldr max 0 ∧ b < l.foldr max 0 then l.foldr max 0 else b := by
  induction l with
  | nil =>
    intro b
    simp only [List.foldl_nil, List.foldr_nil]
    rw [if_neg]
    rintro ⟨h, -⟩
    norm_num at h
  | cons r l ih =>
    intro b
    simp only [List.foldl_cons, List.foldr_cons]
    rw [ih]
    by_cases h1 : (4 : ℚ)/5 < r ∧ b < r
    · have hr : ratioStep b r = r := by unfold ratioStep; rw [if_pos h1]
      rw [hr]
      by_cases h2 : (4 : ℚ)/5 < l.foldr max 0 ∧ r < l.foldr max 0
      · rw [if_pos h2, max_eq_right (le_of_lt h2.2),
          if_pos ⟨h2.1, lt_trans h1.2 h2.2⟩]
      · have hql : l.foldr max 0 ≤ r := by
          by_contra hq
          push_neg at hq
          exact h2 ⟨lt_trans h1.1 hq, hq⟩
        rw [if_neg h2, max_eq_left hql, if_pos h1]
    · have hr : ratioStep b r = b := by unfold ratioStep; rw [if_neg h1]
      rw [hr]
      by_cases h2 : (4 : ℚ)/5 < l.foldr max 0 ∧ b < l.foldr max 0
      · have hrq : r ≤ l.foldr max 0 := by
          by_contra hq
          push_neg at hq
          exact h1 ⟨lt_trans h2.1 hq, lt_trans h2.2 hq⟩
        rw [if_pos h2, max_eq_right hrq, if_pos h2]
      · rw [if_neg h2, if_neg]
        rintro ⟨ha, hb⟩
        rcases le_total r (l.foldr max 0) with hrq | hrq
        · rw [max_eq_right hrq] at ha hb
          exact h2 ⟨ha, hb⟩
        · rw [max_eq_left hrq] at ha hb
          exact h1 ⟨ha, hb⟩

theorem instantCommandStep_eq (ratioFn : String → String → ℚ) (t : String)
    (acc : Option CommandCfg × ℚ) (c : CommandCfg) :
    instantCommandStep ratioFn t acc c =
      if (4 : ℚ)/5 < bestPhraseScore ratioFn t c ∧ acc.2 < bestPhraseScore ratioFn t c
      then (some c, bestPhraseScore ratioFn t c) else acc := by
  have hsnd : (instantCommandStep ratioFn t acc c).2 =
      if (4 : ℚ)/5 < bestPhraseScore ratioFn t c ∧ acc.2 < bestPhraseScore ratioFn t c
      then bestPhraseScore ratioFn t c else acc.2 := by
    unfold instantCommandStep bestPhraseScore
    rw [phraseFold_snd, foldl_ratioStep_eq]
  have hfst : (instantCommandStep ratioFn t acc c).1 =
      if acc.2 < (instantCommandStep ratioFn t acc c).2 then some c else acc.1 := by
    unfold instantCommandStep
    exact phraseFold_fst ratioFn t c _ acc
  by_cases hc : (4 : ℚ)/5 < bestPhraseScore ratioFn t c ∧
      acc.2 < bestPhraseScore ratioFn t c
  · rw [if_pos hc]
    apply Prod.ext
    · rw [hfst, hsnd, if_pos hc, if_pos hc.2]
    · rw [hsnd, if_pos hc]
  · rw [if_neg hc]
    apply Prod.ext
    · rw [hfst, hsnd, if_neg hc, if_neg (lt_irrefl acc.2)]
    · rw [hsnd, if_neg hc]

/-- Loop invariant of the candidate scan: either nothing has qualified so
far (all processed candidates have best-phrase ratio at most 0.8) or the
running best is the first processed candidate attaining the running
maximum, which is strictly above 0.8. -/
def matcherInv (ratioFn : String → String → ℚ) (t : String)
    (P : List CommandCfg) (acc : Option CommandCfg × ℚ) : Prop :=
  (acc = (none, 0) ∧ ∀ c ∈ P, bestPhraseScore ratioFn t c ≤ (4 : ℚ)/5) ∨
  (∃ c l1 l2, P = l1 ++ c :: l2 ∧ acc.1 = some c ∧
    acc.2 = bestPhraseScore ratioFn t c ∧
    (4 : ℚ)/5 < bestPhraseScore ratioFn t c ∧
    (∀ d ∈ l1, bestPhraseScore ratioFn t d < bestPhraseScore ratioFn t c) ∧
    (∀ d ∈ l2, bestPhraseScore ratioFn t d ≤ bestPhraseScore ratioFn t c))

theorem matcherInv_step (ratioFn : String → String → ℚ) (t : String)
    (P : List CommandCfg) (acc : Option CommandCfg × ℚ) (c : CommandCfg)
    (h : matcherInv ratioFn t P acc) :
    matcherInv ratioFn t (P ++ [c]) (instantCommandStep ratioFn t acc c) := by
  rw [instantCommandStep_eq]
  rcases h with ⟨hacc, hall⟩ | ⟨c0, l1, l2, hP, h1, h2, h3, h4, h5⟩
  · subst hacc
    by_cases hc : (4 : ℚ)/5 < bestPhraseScore ratioFn t c ∧
        ((none : Option CommandCfg), (0 : ℚ)).2 < bestPhraseScore ratioFn t c
    · rw [if_pos hc]
      right
      refine ⟨c, P, [], by simp, rfl, rfl, hc.1, ?_, by simp⟩
      intro d hd
      exact lt_of_le_of_lt (hall d hd) hc.1
    · rw [if_neg hc]
      left
      refine ⟨rfl, ?_⟩
      intro d hd
      rcases List.mem_append.mp hd with hd | hd
      · exact hall d hd
      · have hdc : d = c := by simpa using hd
        subst hdc
        by_contra hgt
        push_neg at hgt
        exact hc ⟨hgt, lt_trans (by norm_num) hgt⟩
  · by_cases hc : (4 : ℚ)/5 < bestPhraseScore ratioFn t c ∧
        acc.2 < bestPhraseScore ratioFn t c
    · rw [if_pos hc]
      right
      refine ⟨c, P, [], by simp, rfl, rfl, hc.1, ?_, by simp⟩
      intro d hd
      have hc0c : bestPhraseScore ratioFn t c0 < bestPhraseScore ratioFn t c := by
        rw [← h2]; exact hc.2
      rw [hP] at hd
      rcases List.mem_append.mp hd with hd | hd
      · exact lt_trans (h4 d hd) hc0c
      · rcases List.mem_cons.mp hd with hd | hd
        · subst hd; exact hc0c
        · exact lt_of_le_of_lt (h5 d hd) hc0c
    · rw [if_neg hc]
      right
      refine ⟨c0, l1, l2 ++ [c], by rw [hP]; simp, h1, h2, h3, h4, ?_⟩
      intro d hd
      rcases List.mem_append.mp hd with hd | hd
      · exact h5 d hd
      · have hdc : d = c := by simpa using hd
        subst hdc
        by_contra hgt
        push_neg at hgt
        refine hc ⟨lt_trans h3 ?_, ?_⟩
        · rw [← h2] at hgt; rw [← h2]; exact hgt
        · rw [h2]; exact hgt

theorem matcherInv_fold (ratioFn : String → String → ℚ) (t : String) :
    ∀ (cs P : List CommandCfg) (acc : Option CommandCfg × ℚ),
      matcherInv ratioFn t P acc →
      matcherInv ratioFn t (P ++ cs) (cs.foldl (instantCommandStep ratioFn t) acc) := by
  intro cs
  induction cs with
  | nil =>
    intro P acc h
    simpa using h
  | cons c cs ih =>
    intro P acc h
    have h1 := matcherInv_step ratioFn t P acc c h
    have h2 := ih (P ++ [c]) _ h1
    rw [List.append_assoc] at h2
    exact h2

/-- C6: the Instant-Command Matcher returns none exactly when no
instant-eligible candidate has a best case-insensitive phrase ratio
strictly above 0.8; a selected candidate always has best-phrase ratio
strictly above 0.8 and is the first-seen candidate among those achieving
the highest ratio (all earlier eligible candidates score strictly lower,
all later ones score at most as much, so ties keep the earlier one). -/
theorem C6_instant_matcher_selection (ratioFn : String → String → ℚ)
    (transcript : String) (commands : List CommandCfg) :
    (bestInstantCommand ratioFn transcript commands = none ↔
      ∀ c ∈ commands.filter (fun c => !c.instant_activation.isEmpty),
        bestPhraseScore ratioFn transcript c ≤ (4 : ℚ)/5) ∧
    (∀ c, bestInstantCommand ratioFn transcript commands = some c →
      (4 : ℚ)/5 < bestPhraseScore ratioFn transcript c ∧
      ∃ l1 l2,
        commands.filter (fun c => !c.instant_activation.isEmpty) = l1 ++ c :: l2 ∧
        (∀ d ∈ l1, bestPhraseScore ratioFn transcript d <
          bestPhraseScore ratioFn transcript c) ∧
        (∀ d ∈ l2, bestPhraseScore ratioFn transcript d ≤
          bestPhraseScore ratioFn transcript c)) := by
  have hInv := matcherInv_fold ratioFn transcript
    (commands.filter (fun c => !c.instant_activation.isEmpty)) [] (none, 0)
    (Or.inl ⟨rfl, by simp⟩)
  rw [List.nil_append] at hInv
  have hbest : bestInstantCommand ratioFn transcript commands =
      ((commands.filter (fun c => !c.instant_activation.isEmpty)).foldl
        (instantCommandStep ratioFn transcript) (none, 0)).1 := rfl
  rcases hInv with ⟨hacc, hall⟩ | ⟨c0, l1, l2, hP, h1, h2, h3, h4, h5⟩
  · constructor
    · constructor
      · intro _
        exact hall
      · intro _
        rw [hbest, hacc]
    · intro c hc
      rw [hbest, hacc] at hc
      simp at hc
  · constructor
    · constructor
      · intro hnone
        rw [hbest, h1] at hnone
        simp at hnone
      · intro hall
        exact absurd h3 (not_lt.mpr (hall c0 (by rw [hP]; simp)))
    · intro c hc
      rw [hbest, h1] at hc
      have hcc : c0 = c := Option.some.inj hc
      subst hcc
      exact ⟨h3, l1, l2, hP, h4, h5⟩

/-- A constant similarity metric used to instantiate the matcher theorem
on a concrete input. -/
def witnessRatioFn : String → String → ℚ := fun _ _ => 1

/-- A concrete instant-eligible command used as witness input. -/
def witnessCommand : CommandCfg :=
  { name := "PortOlisar", instant_activation := ["go to Port Olisar"] }

/-- The witness command list. -/
def witnessCommands : List CommandCfg := [witnessCommand]

/-- Witness for C6 at a concrete input: the single qualifying candidate is
selected and its best-phrase ratio is above the threshold. -/
theorem C6_witness :
    bestInstantCommand witnessRatioFn "go to port olisar" witnessCommands =
      some witnessCommand ∧
    (4 : ℚ)/5 < bestPhraseScore witnessRatioFn "go to port olisar" witnessCommand := by
  have hsel : bestInstantCommand witnessRatioFn "go to port olisar" witnessCommands =
      some witnessCommand := by
    norm_num [bestInstantCommand, witnessCommands, witnessCommand,
      instantCommandStep, instantPhraseStep, witnessRatioFn]
  have h := (C6_instant_matcher_selection witnessRatioFn "go to port olisar"
    witnessCommands).2 witnessCommand hsel
  exact ⟨hsel, h.1⟩

/-! ### Lemmas about the history buffer policy -/

theorem evictPairs_length_le (max_messages : Nat) (hmax : 3 ≤ max_messages) :
    ∀ (n : Nat) (messages : List Message), messages.length ≤ n →
      (evictPairs messages max_messages hmax).1.length ≤ max_messages := by
  intro n
  induction n with
  | zero =>
    intro messages hlen
    unfold evictPairs
    rw [dif_neg (by omega)]
    show messages.length ≤ max_messages
    omega
  | succ n ih =>
    intro messages hlen
    unfold evictPairs
    split
    · simp only
      apply ih
      simp only [List.length_append, List.length_take, List.length_drop]
      omega
    · show messages.length ≤ max_messages
      omega

theorem evictPairs_head (max_messages : Nat) (hmax : 3 ≤ max_messages) :
    ∀ (n : Nat) (messages : List Message), messages.length ≤ n →
      (evictPairs messages max_messages hmax).1.head? = messages.head? := by
  intro n
  induction n with
  | zero =>
    intro messages hlen
    unfold evictPairs
    rw [dif_neg (by omega)]
  | succ n ih =>
    intro messages hlen
    unfold evictPairs
    split
    · rename_i h
      rcases messages with _ | ⟨m, ms⟩
      · simp at h
      · simp only
        rw [ih]
        · simp
        · simp only [List.length_append, List.length_take, List.length_drop]
          simp only [List.length_cons] at hlen h ⊢
          omega
    · rfl

/-- C4: for every message sequence and set retention size R, the History
Buffer Policy leaves at most 2R+1 messages and keeps the message at
position 0 unchanged; with an unset retention size the input is returned
unchanged (with no reported eviction). -/
theorem C4_history_buffer_policy (messages : List Message) (buf : Option Nat) :
    (buf = none → cleanup_conversation_history messages buf = (messages, 0)) ∧
    ∀ R, buf = some R →
      (cleanup_conversation_history messages (some R)).1.length ≤ 2 * R + 1 ∧
      (cleanup_conversation_history messages (some R)).1.head? = messages.head? := by
  constructor
  · intro h
    subst h
    rfl
  · intro R hR
    simp only [cleanup_conversation_history]
    by_cases hlen : R * 2 + 1 < messages.length
    · rw [if_pos hlen]
      by_cases hR0 : R = 0
      · subst hR0
        rw [dif_pos rfl]
        simp only [reset_conversation_history]
        constructor
        · simp only [List.length_take]
          omega
        · rcases messages with _ | ⟨m, ms⟩
          · rfl
          · rfl
      · rw [dif_neg hR0]
        constructor
        · have := evictPairs_length_le (R * 2 + 1) (by omega) messages.length messages
            (le_refl _)
          omega
        · exact evictPairs_head (R * 2 + 1) (by omega) messages.length messages (le_refl _)
    · rw [if_neg hlen]
      constructor
      · simp only
        omega
      · rfl

/-- C5: with retention size 0, once the sequence exceeds the one-message
maximum, the policy drops the entire post-system-message history in a
single reset step (the result is exactly the leading system message) and
reports one eviction batch whose pair count is the number of evicted
pairs, i.e. half of the evicted post-system messages, rounded down. -/
theorem C5_retention_zero_full_reset (messages : List Message)
    (h : 1 < messages.length) :
    cleanup_conversation_history messages (some 0) =
      (reset_conversation_history messages, (messages.drop 1).length / 2) ∧
    reset_conversation_history messages = messages.take 1 ∧
    (reset_conversation_history messages).length = 1 := by
  refine ⟨?_, rfl, ?_⟩
  · simp only [cleanup_conversation_history]
    rw [if_pos (by omega)]
    simp [List.length_drop]
  · simp only [reset_conversation_history, List.length_take]
    omega

/-- A concrete five-message conversation used as witness input. -/
def witnessMessages : List Message :=
  [ { role := .system, content := "sys" },
    { role := .user, content := "u1" }, { role := .assistant, content := "a1" },
    { role := .user, content := "u2" }, { role := .assistant, content := "a2" } ]

/-- Witness for C4 at a concrete input (retention size 1 over five
messages). -/
theorem C4_witness :
    (cleanup_conversation_history witnessMessages (some 1)).1.length ≤ 2 * 1 + 1 ∧
    (cleanup_conversation_history witnessMessages (some 1)).1.head? =
      witnessMessages.head? :=
  (C4_history_buffer_policy witnessMessages (some 1)).2 1 rfl

/-- Witness for C5 at a concrete input (retention size 0 over five
messages). -/
theorem C5_witness :
    cleanup_conversation_history witnessMessages (some 0) =
      (reset_conversation_history witnessMessages,
        (witnessMessages.drop 1).length / 2) ∧
    reset_conversation_history witnessMessages = witnessMessages.take 1 ∧
    (reset_conversation_history witnessMessages).length = 1 :=
  C5_retention_zero_full_reset witnessMessages (by decide)

/-! ### Lemmas about the context switcher -/

theorem AIContext.fromValue_value (c : AIContext) :
    AIContext.fromValue c.value = some c := by
  cases c <;> rfl

theorem ContextsHistory.get_insert_self (h : ContextsHistory) (c : AIContext)
    (v : SavedContext) : (h.insert c v).get c = some v := by
  cases c <;> rfl

theorem ContextsHistory.get_insert_of_ne (h : ContextsHistory) (c c' : AIContext)
    (v : SavedContext) (hne : c' ≠ c) : (h.insert c v).get c' = h.get c' := by
  cases c <;> cases c' <;> first | rfl | exact absurd rfl hne

theorem applySideConfig_messages (s : WingmanState) :
    (applySideConfig s).messages = s.messages := by
  unfold applySideConfig
  split <;> rfl

theorem applySideConfig_current_context (s : WingmanState) :
    (applySideConfig s).current_context = s.current_context := by
  unfold applySideConfig
  split <;> rename_i hc <;> rw [hc]

theorem applySideConfig_contexts_history (s : WingmanState) :
    (applySideConfig s).contexts_history = s.contexts_history := by
  unfold applySideConfig
  split <;> rfl

theorem setCurrentContext_restore (s : WingmanState) (nc : AIContext)
    (saved : SavedContext) (h : s.contexts_history.get nc = some saved) :
    ∃ t, setCurrentContext s nc false = .ok t ∧
      t.messages = saved.messages ∧ t.current_context = nc ∧
      t.contexts_history = s.contexts_history ∧ t.current_tools = saved.tools := by
  simp only [setCurrentContext, h, Bool.false_eq_true, if_false]
  exact ⟨_, rfl, rfl, rfl, rfl, rfl⟩

theorem setCurrentContext_new (s : WingmanState) (nc : AIContext) :
    ∃ t, setCurrentContext s nc true = .ok t ∧
      t.messages = [systemMessage s.cfg nc] ∧ t.current_context = nc ∧
      t.contexts_history = s.contexts_history ∧
      t.current_tools = getContextTools nc := by
  simp only [setCurrentContext, if_true]
  exact ⟨_, rfl, rfl, rfl, rfl, rfl⟩

theorem saveCurrentContext_get_isSome (s : WingmanState) (c : AIContext)
    (h : (s.contexts_history.get c).isSome = true) :
    ∃ sv, (saveCurrentContext s).contexts_history.get c = some sv := by
  by_cases hc : c = s.current_context
  · subst hc
    refine ⟨{ messages := s.messages, tools := s.current_tools }, ?_⟩
    simp only [saveCurrentContext]
    exact ContextsHistory.get_insert_self _ _ _
  · obtain ⟨sb, hsb⟩ := Option.isSome_iff_exists.mp h
    refine ⟨sb, ?_⟩
    simp only [saveCurrentContext]
    rw [ContextsHistory.get_insert_of_ne _ _ _ _ hc]
    exact hsb

/-- Inversion of a successful mid-turn context switch with at least three
live messages: the target resolves to a persona `B`, the resulting current
context is `B`, and the store holds, under the previous current context,
exactly the previous messages minus the detached final pair, together with
the previous tool set. -/
theorem executeSwitch_ok_inversion (s : WingmanState) (args : FunctionArgs)
    (out : WingmanState × String × Option String)
    (h3 : 3 ≤ s.messages.length)
    (hok : executeSwitchContextFunction s args = .ok out) :
    ∃ B, AIContext.fromValue args.context_name = some B ∧
      out.1.current_context = B ∧
      out.1.contexts_history = s.contexts_history.insert s.current_context
        { messages := s.messages.take (s.messages.length - 2),
          tools := s.current_tools } := by
  simp only [executeSwitchContextFunction, if_pos h3] at hok
  rcases hB : AIContext.fromValue args.context_name with _ | B
  · simp only [switchContext, hB] at hok
    exact Except.noConfusion hok
  · simp only [switchContext, hB] at hok
    split at hok
    · exact Except.noConfusion hok
    · rename_i s2 hs
      split at hs
      · rename_i hmem
        obtain ⟨sv, hsv⟩ := saveCurrentContext_get_isSome
          { s with messages := s.messages.take (s.messages.length - 2) } B hmem
        obtain ⟨t, ht, htm, htc, hth, htt⟩ := setCurrentContext_restore _ B sv hsv
        rw [ht] at hs
        injection hs with hts
        subst hts
        injection hok with h
        subst h
        refine ⟨B, rfl, ?_, ?_⟩
        · show (applySideConfig t).current_context = B
          rw [applySideConfig_current_context, htc]
        · show (applySideConfig t).contexts_history = _
          rw [applySideConfig_contexts_history, hth]
          simp only [saveCurrentContext]
      · obtain ⟨t, ht, htm, htc, hth, htt⟩ := setCurrentContext_new
          (saveCurrentContext
            { s with messages := s.messages.take (s.messages.length - 2) }) B
        rw [ht] at hs
        injection hs with hts
        subst hts
        injection hok with h
        subst h
        refine ⟨B, rfl, ?_, ?_⟩
        · show (applySideConfig t).current_context = B
          rw [applySideConfig_current_context, htc]
        · show (applySideConfig t).contexts_history = _
          rw [applySideConfig_contexts_history, hth]
          simp only [saveCurrentContext]

/-- C1: switching from the current persona A to a different persona B
mid-turn (each leg detaching the final user/assistant pair) and then
switching back to A restores, for A, the message sequence it had before
the detour, except that its final detached exchange is replaced by the
pair spliced in by the return switch; the current context is A again. -/
theorem C1_context_switch_round_trip (s : WingmanState) (B : AIContext)
    (argsB argsA : FunctionArgs) (s1 : WingmanState) (r1 : String)
    (i1 : Option String)
    (hargsB : argsB.context_name = B.value)
    (hargsA : argsA.context_name = s.current_context.value)
    (hAB : s.current_context ≠ B)
    (h3 : 3 ≤ s.messages.length)
    (hswitch : executeSwitchContextFunction s argsB = .ok (s1, r1, i1))
    (h3' : 3 ≤ s1.messages.length) :
    ∃ s2 r2 i2,
      executeSwitchContextFunction s1 argsA = .ok (s2, r2, i2) ∧
      s2.messages = s.messages.take (s.messages.length - 2) ++
        s1.messages.drop (s1.messages.length - 2) ∧
      s2.current_context = s.current_context := by
  obtain ⟨B', hB', hctx, hhist⟩ :=
    executeSwitch_ok_inversion s argsB (s1, r1, i1) h3 hswitch
  rw [hargsB, AIContext.fromValue_value] at hB'
  have hBB : B = B' := Option.some.inj hB'
  subst hBB
  have hctx1 : s1.current_context = B := hctx
  have hhist1 : s1.contexts_history = s.contexts_history.insert s.current_context
      { messages := s.messages.take (s.messages.length - 2),
        tools := s.current_tools } := hhist
  have hget1 : s1.contexts_history.get s.current_context =
      some { messages := s.messages.take (s.messages.length - 2),
             tools := s.current_tools } := by
    rw [hhist1]
    exact ContextsHistory.get_insert_self _ _ _
  have hne : s.current_context ≠
      ({ s1 with messages := s1.messages.take (s1.messages.length - 2) }
        : WingmanState).current_context := by
    show s.current_context ≠ s1.current_context
    rw [hctx1]
    exact hAB
  have hsave : (saveCurrentContext
      { s1 with messages := s1.messages.take (s1.messages.length - 2) }).contexts_history.get
        s.current_context =
      some { messages := s.messages.take (s.messages.length - 2),
             tools := s.current_tools } := by
    simp only [saveCurrentContext]
    rw [ContextsHistory.get_insert_of_ne _ _ _ _ hne]
    exact hget1
  obtain ⟨t2, ht2, ht2m, ht2c, ht2h, ht2t⟩ :=
    setCurrentContext_restore
      (saveCurrentContext
        { s1 with messages := s1.messages.take (s1.messages.length - 2) })
      s.current_context _ hsave
  have hisSome : (s1.contexts_history.get s.current_context).isSome = true := by
    rw [hget1]
    rfl
  have hfinal : executeSwitchContextFunction s1 argsA =
      .ok ({ applySideConfig t2 with
               messages := (applySideConfig t2).messages ++
                 s1.messages.drop (s1.messages.length - 2) },
           "switched to context " ++ argsA.context_name ++
             ", reevaluate the user request, keep the users language",
           none) := by
    simp only [executeSwitchContextFunction, if_pos h3']
    simp only [switchContext, hargsA, AIContext.fromValue_value]
    rw [if_pos hisSome, ht2]
  refine ⟨_, _, _, hfinal, ?_, ?_⟩
  · show (applySideConfig t2).messages ++ _ = _
    rw [applySideConfig_messages, ht2m]
  · show (applySideConfig t2).current_context = _
    rw [applySideConfig_current_context, ht2c]

/-- C2 (code bug): a context-switch invocation with fewer than three live
messages detaches nothing, but after the target is activated the code
executes `self.messages.extend(context_messages)` with
`context_messages = None`, raising `TypeError` instead of completing the
plain activation. -/
theorem C2_short_history_switch_raises (s : WingmanState) (args : FunctionArgs)
    (hvalid : (AIContext.fromValue args.context_name).isSome = true)
    (hlen : s.messages.length < 3) :
    executeSwitchContextFunction s args = .error .typeError := by
  obtain ⟨B, hB⟩ := Option.isSome_iff_exists.mp hvalid
  simp only [executeSwitchContextFunction,
    if_neg (by omega : ¬ 3 ≤ s.messages.length)]
  simp only [switchContext, hB]
  by_cases hmem : (s.contexts_history.get B).isSome = true
  · obtain ⟨sv, hsv⟩ := saveCurrentContext_get_isSome s B hmem
    obtain ⟨t, ht, -⟩ := setCurrentContext_restore _ B sv hsv
    rw [if_pos hmem, ht]
  · obtain ⟨t, ht, -⟩ := setCurrentContext_new (saveCurrentContext s) B
    rw [if_neg hmem, ht]

/-- C3 (code bug): a context-switch request whose target does not resolve
to a known persona raises: `AIContext(name)` raises `ValueError`, the
handler catches only `AttributeError`, so the error escapes both the
switcher and the dispatcher instead of being a logged no-op. -/
theorem C3_invalid_context_switch_raises (s : WingmanState) (args : FunctionArgs)
    (hinvalid : AIContext.fromValue args.context_name = none) :
    switchContext s args.context_name = .error .valueError ∧
    executeSwitchContextFunction s args = .error .valueError := by
  constructor
  · simp only [switchContext, hinvalid]
  · simp only [executeSwitchContextFunction, switchContext, hinvalid]

/-- Static configuration used by the concrete witness states. -/
def witnessConfig : StaticConfig :=
  { context_prompt_cora := "cora prompt", context_prompt_tdd := "tdd prompt",
    cora_voice := "nova", conversation_model_cora := "gpt-4",
    conversation_model_tdd := "gpt-3.5" }

/-- A concrete wingman state in the CORA context with five live messages. -/
def witnessState : WingmanState :=
  { cfg := witnessConfig, messages := witnessMessages,
    current_context := .CORA, current_tools := .coraTools,
    messages_buffer := some 10, config_tts_voice := "nova" }

/-- Arguments of a switch_context call targeting the TDD persona. -/
def witnessArgsToTdd : FunctionArgs :=
  { context_name := "TradeAndDevelopmentDivisionRequests" }

/-- Arguments of a switch_context call targeting the CORA persona. -/
def witnessArgsToCora : FunctionArgs :=
  { context_name := "CoraInteractionRequests" }

/-- Arguments of a switch_context call with an unknown persona name. -/
def witnessArgsInvalid : FunctionArgs :=
  { context_name := "GalactapediaRequests" }

/-- The state reached from `witnessState` by the TDD switch: CORA saved
without its detached final pair, fresh TDD system message with the pair
spliced in, TDD side configuration applied. -/
def witnessStateAfterSwitch : WingmanState :=
  { cfg := witnessConfig,
    contexts_history :=
      { cora := some { messages := witnessMessages.take 3, tools := .coraTools },
        tdd := none },
    current_context := .TDD,
    messages :=
      [ { role := .system, content := "tdd prompt" },
        { role := .user, content := "u2" },
        { role := .assistant, content := "a2" } ],
    current_tools := .tddTools,
    messages_buffer := some 20,
    current_user_request := none,
    tdd_voice := "onyx",
    config_tts_voice := "onyx",
    config_play_beep := true,
    config_radio_effect := true,
    config_robot_effect := false,
    config_conversation_model := "gpt-3.5" }

/-- Witness for C1 at a concrete input: a full CORA to TDD and back
round trip. -/
theorem C1_witness :
    ∃ s2 r2 i2,
      executeSwitchContextFunction witnessStateAfterSwitch witnessArgsToCora =
        .ok (s2, r2, i2) ∧
      s2.messages = witnessState.messages.take (witnessState.messages.length - 2) ++
        witnessStateAfterSwitch.messages.drop
          (witnessStateAfterSwitch.messages.length - 2) ∧
      s2.current_context = witnessState.current_context :=
  C1_context_switch_round_trip witnessState .TDD witnessArgsToTdd witnessArgsToCora
    witnessStateAfterSwitch
    "switched to context TradeAndDevelopmentDivisionRequests, reevaluate the user request, keep the users language"
    none rfl rfl (by decide) (by decide) rfl (by decide)

/-- A concrete wingman state whose conversation holds only the system
message. -/
def witnessShortState : WingmanState :=
  { cfg := witnessConfig, messages := [{ role := .system, content := "sys" }] }

/-- Witness for C2 at a concrete input: one live message and a valid
target persona end in the TypeError of `messages.extend(None)`. -/
theorem C2_witness :
    executeSwitchContextFunction witnessShortState witnessArgsToTdd =
      .error .typeError :=
  C2_short_history_switch_raises witnessShortState witnessArgsToTdd
    (by decide) (by decide)

/-- Witness for C3 at a concrete input: an unknown persona name makes both
the switcher and the dispatcher raise ValueError. -/
theorem C3_witness :
    switchContext witnessState witnessArgsInvalid.context_name =
      .error .valueError ∧
    executeSwitchContextFunction witnessState witnessArgsInvalid =
      .error .valueError :=
  C3_invalid_context_switch_raises witnessState witnessArgsInvalid (by decide)

/-! ### Lemmas about the tool-call dispatcher and the orchestrator -/

/-- An execute_command tool call resolves to the history-resetting
command: the configuration lookup yields a command named
"ResetConversationHistory" with no sc_commands, the one execute_command
path in src that replaces the live message sequence
(`_execute_command`, lines 709-710, reached from lines 675-676). -/
def resetsHistoryCall (env : Env) (args : FunctionArgs) : Prop :=
  ∃ command, env.get_command args.command_name = some command ∧
    command.sc_commands.isEmpty = true ∧
    command.name = "ResetConversationHistory"

theorem executeCommand_preserves_messages (env : Env) (s : WingmanState)
    (fn : String) (args : FunctionArgs)
    (h1 : fn ≠ "switch_context")
    (h2 : fn = "execute_command" → ¬ resetsHistoryCall env args) :
    ∃ s' fr ir, executeCommandByFunctionCall env s fn args = .ok (s', fr, ir) ∧
      s'.messages = s.messages := by
  by_cases hfn : fn = "execute_command"
  · subst hfn
    rcases hc : env.get_command args.command_name with _ | command
    · simp only [executeCommandByFunctionCall, if_neg h1, if_true, hc]
      exact ⟨_, _, _, rfl, rfl⟩
    · have hcond : ¬(command.sc_commands.isEmpty = true ∧
          command.name = "ResetConversationHistory") := by
        intro hcond
        exact h2 rfl ⟨command, hc, hcond.1, hcond.2⟩
      simp only [executeCommandByFunctionCall, if_neg h1, if_true, hc]
      rw [if_neg hcond]
      exact ⟨_, _, _, rfl, rfl⟩
  · simp only [executeCommandByFunctionCall, if_neg h1, if_neg hfn]
    split_ifs <;> exact ⟨_, _, _, rfl, rfl⟩

theorem handleToolCallsLoop_appends (env : Env) :
    ∀ (calls : List ToolCall) (s : WingmanState) (acc : Option String),
      (∀ tc ∈ calls, tc.function_name ≠ "switch_context" ∧
        (tc.function_name = "execute_command" →
          ¬ resetsHistoryCall env tc.args)) →
      ∃ s' inst suffix,
        handleToolCallsLoop env s acc calls = .ok (s', inst) ∧
        s'.messages = s.messages ++ suffix ∧
        suffix.map (fun m => (m.role, m.name, m.tool_call_id)) =
          calls.map (fun tc => (Role.tool, some tc.function_name, tc.id)) := by
  intro calls
  induction calls with
  | nil =>
    intro s acc _
    exact ⟨s, acc, [], rfl, by simp, rfl⟩
  | cons tc rest ih =>
    intro s acc H
    obtain ⟨h1, h2⟩ := H tc (List.mem_cons_self tc rest)
    obtain ⟨s1, fr, ir, hexec, hmsg⟩ := executeCommand_preserves_messages env s
      tc.function_name tc.args h1 h2
    obtain ⟨s', inst, suffix, hloop, hmsg', hmap⟩ := ih
      { s1 with messages :=
          s1.messages ++ [⟨.tool, fr, some tc.function_name, tc.id⟩] }
      ir (fun d hd => H d (List.mem_cons_of_mem tc hd))
    refine ⟨s', inst, ⟨.tool, fr, some tc.function_name, tc.id⟩ :: suffix, ?_, ?_, ?_⟩
    · simp only [handleToolCallsLoop, hexec]
      exact hloop
    · rw [hmsg', hmsg]
      simp
    · simp [hmap]

/-- C7 (amended): when no call in the batch is a context switch and no
execute_command call resolves to the history-resetting command (the only
non-switch handler path in src that replaces the live message sequence),
the dispatcher processes the calls sequentially in input order and
appends exactly one tool-result message per call — with the tool role,
the function name of the call and its correlation id — as a contiguous
suffix directly after the pre-existing sequence (hence directly after the
triggering assistant message when it is last). -/
theorem C7_sequential_tool_results (env : Env) (s : WingmanState)
    (tool_calls : List ToolCall)
    (H : ∀ tc ∈ tool_calls, tc.function_name ≠ "switch_context" ∧
      (tc.function_name = "execute_command" →
        ¬ resetsHistoryCall env tc.args)) :
    ∃ s' inst suffix,
      handleToolCalls env s tool_calls = .ok (s', inst) ∧
      s'.messages = s.messages ++ suffix ∧
      suffix.map (fun m => (m.role, m.name, m.tool_call_id)) =
        tool_calls.map (fun tc => (Role.tool, some tc.function_name, tc.id)) :=
  handleToolCallsLoop_appends env tool_calls s none H

/-- External collaborators instantiated with inert concrete functions for
the witness and counterexample computations. -/
def witnessEnv : Env :=
  { ratioFn := fun _ _ => 0,
    get_command := fun _ => none,
    select_command_response := fun _ => none,
    command_outcome := fun _ => { response := "" },
    keymapping_outcome := fun _ => ("", none),
    uex_best_trade_from_location := fun _ => "uex",
    uex_best_trade_between_locations := fun _ _ => "uex",
    uex_best_sell_price_at_location := fun _ _ => "uex",
    uex_best_trade_for_commodity := fun _ => "uex",
    uex_best_selling_location_for_commodity := fun _ => "uex",
    summarize_function_calls := fun _ => "summary",
    finalize_response := fun r => r }

/-- A concrete state holding system, user and assistant messages, as at
the start of a tool dispatch. -/
def counterexampleState : WingmanState :=
  { cfg := witnessConfig,
    messages := [ { role := .system, content := "sys" },
      { role := .user, content := "u" },
      { role := .assistant, content := "a" } ],
    current_context := .CORA, current_tools := .coraTools,
    messages_buffer := some 10 }

/-- Two trading queries followed by a context switch in one batch. -/
def counterexampleCalls : List ToolCall :=
  [ { id := some "1", function_name := "find_best_trade_route_for_commodity" },
    { id := some "2", function_name := "find_best_trade_route_for_commodity" },
    { id := some "3", function_name := "switch_context",
      args := { context_name := "TradeAndDevelopmentDivisionRequests" } } ]

/-- Counterexample to C7 as stated: dispatching two trading queries and
then a context switch appends one tool result per call, but the final
switch detaches the two earlier tool results from the old context and
splices them into the fresh target context, so the active sequence ends as
system message plus three tool results with no assistant message at all —
the tool results no longer follow their triggering assistant message. -/
theorem C7_counterexample :
    (handleToolCalls witnessEnv counterexampleState counterexampleCalls).map
        (fun p => p.1.messages.map Message.role) =
      .ok [Role.system, Role.tool, Role.tool, Role.tool] ∧
    Role.assistant ∉ [Role.system, Role.tool, Role.tool, Role.tool] := by
  exact ⟨rfl, by decide⟩

/-- A non-resetting command execution followed by a trading query, used
as witness input. -/
def witnessBatchCalls : List ToolCall :=
  [ { id := some "1", function_name := "execute_command",
      args := { command_name := "RequestLandingPermission" } },
    { id := some "2", function_name := "find_best_trade_route_for_commodity" } ]

/-- Witness for C7 at a concrete input: an ordinary command execution and
a trading query append exactly one tool-result message each, in order,
after the assistant message. -/
theorem C7_witness :
    ∃ s' inst suffix,
      handleToolCalls witnessEnv counterexampleState witnessBatchCalls =
        .ok (s', inst) ∧
      s'.messages = counterexampleState.messages ++ suffix ∧
      suffix.map (fun m => (m.role, m.name, m.tool_call_id)) =
        witnessBatchCalls.map (fun tc => (Role.tool, some tc.function_name, tc.id)) :=
  C7_sequential_tool_results witnessEnv counterexampleState witnessBatchCalls
    (by
      intro tc htc
      simp only [witnessBatchCalls, List.mem_cons, List.mem_singleton,
        List.not_mem_nil, or_false] at htc
      rcases htc with rfl | rfl
      · refine ⟨by decide, fun _ hreset => ?_⟩
        obtain ⟨c, hcmd, -⟩ := hreset
        simp [witnessEnv] at hcmd
      · exact ⟨by decide, fun h => absurd h (by decide)⟩)

/-- C8 (code bug): with no instant match and the LLM transport returning
no completion, the orchestrator reaches line 228 and evaluates
`response_message.content` on `None`, raising `AttributeError` instead of
ending the turn with a null result. -/
theorem C8_transport_failure_raises (env : Env) (s : WingmanState)
    (transcript : String)
    (hni : bestInstantCommand env.ratioFn transcript s.cfg.commands = none) :
    getResponseForTranscript env s transcript none = .error .attributeError := by
  simp only [getResponseForTranscript, executeInstantActivationCommand, hni,
    orchestrateModelCall, makeGptCall]

/-- Witness for C8 at a concrete input. -/
theorem C8_witness :
    getResponseForTranscript witnessEnv witnessState "hello" none =
      .error .attributeError :=
  C8_transport_failure_raises witnessEnv witnessState "hello" rfl

/-- C9: dispatching switch_tdd_employee mutates only the persona-local
voice and the tts-voice configuration slot; the live message sequence, the
current context, the active tool set and the saved context store are
untouched, and the success payload is returned with no instant playback. -/
theorem C9_tdd_employee_switch_frame (env : Env) (s : WingmanState)
    (args : FunctionArgs) :
    ∃ s', executeCommandByFunctionCall env s "switch_tdd_employee" args =
        .ok (s', tddEmployeeSwitchPayload, none) ∧
      s'.messages = s.messages ∧ s'.current_context = s.current_context ∧
      s'.current_tools = s.current_tools ∧
      s'.contexts_history = s.contexts_history ∧
      s'.tdd_voice = args.employee_id ∧
      s'.config_tts_voice = args.employee_id := by
  refine ⟨{ s with tdd_voice := args.employee_id, config_tts_voice := args.employee_id }, ?_, rfl, rfl, rfl, rfl, rfl, rfl⟩
  simp [executeCommandByFunctionCall]

/-- C10: when the active TDD voice is one of the configured voices and the
configured voice set has at least two members, the sub-role switch picks a
configured voice different from the previous one and returns the success
payload. -/
theorem C10_switch_tdd_employee_changes_voice (m : TddManagerState) (r : Nat)
    (args : FunctionArgs)
    (hmem : m.tdd_voice ∈ m.tdd_voices_config)
    (hcard : 2 ≤ m.tdd_voices_config.dedup.length) :
    ∃ m', switch_tdd_employee m r args =
        .ok (m', tddManagerSwitchPayload, none) ∧
      m'.tdd_voice ∈ m.tdd_voices_config ∧
      m'.tdd_voice ≠ m.tdd_voice := by
  have hmem' : m.tdd_voice ∈ m.tdd_voices_config.dedup := List.mem_dedup.mpr hmem
  have hnodup : m.tdd_voices_config.dedup.Nodup := List.nodup_dedup _
  have hlen : 0 < (m.tdd_voices_config.dedup.erase m.tdd_voice).length := by
    rw [List.length_erase_of_mem hmem']
    omega
  have hlt : r % (m.tdd_voices_config.dedup.erase m.tdd_voice).length <
      (m.tdd_voices_config.dedup.erase m.tdd_voice).length := Nat.mod_lt _ hlen
  obtain ⟨v, hget⟩ : ∃ v,
      (m.tdd_voices_config.dedup.erase m.tdd_voice).get?
        (r % (m.tdd_voices_config.dedup.erase m.tdd_voice).length) = some v :=
    ⟨_, List.get?_eq_get hlt⟩
  have hv : v ∈ m.tdd_voices_config.dedup.erase m.tdd_voice := List.get?_mem hget
  have hvin : v ∈ m.tdd_voices_config :=
    List.mem_dedup.mp (List.mem_of_mem_erase hv)
  have hvne : v ≠ m.tdd_voice := ((List.Nodup.mem_erase_iff hnodup).mp hv).1
  refine ⟨{ m with tdd_voice := v, config_tdd_voice := v, config_tts_voice := v }, ?_, hvin, hvne⟩
  simp only [switch_tdd_employee]
  rw [if_pos hmem', hget]

/-- A concrete TDD manager configuration with two voices. -/
def witnessTddManager : TddManagerState :=
  { tdd_voices_config := ["onyx", "nova"], tdd_voice := "onyx",
    config_tdd_voice := "onyx", config_tts_voice := "onyx" }

/-- Witness for C10 at a concrete input. -/
theorem C10_witness :
    ∃ m', switch_tdd_employee witnessTddManager 0 {} =
        .ok (m', tddManagerSwitchPayload, none) ∧
      m'.tdd_voice ∈ witnessTddManager.tdd_voices_config ∧
      m'.tdd_voice ≠ witnessTddManager.tdd_voice :=
  C10_switch_tdd_employee_changes_voice witnessTddManager 0 {}
    (by decide) (by decide)
